import Mathlib

/-!
Verification of the `ErrorHandler` service (`src/error.handler.ts`), an Angular
reactive-forms error reconciler.  The form model (`AbstractControl` trees made of
`FormControl`, `FormGroup`, `FormArray`) is embedded as the inductive `Node`;
the service's methods become pure functions that thread the form tree and the
external error accumulator explicitly.  JavaScript runtime exceptions (reading a
property of `null`/`undefined`) are modelled by an `Option String` component of
each result: `none` means normal completion, `some msg` means the call threw.
-/

/-- The `ValidationErrors` object read by `setErrorMessage`.  Each key of the
JS object becomes a component; an absent key is `none`/`false`.
`maxlength` carries `(actualLength, requiredLength)`, `min` carries
`(min, actual)`, `max` carries `(max, actual)`; `serverError` carries the
message string injected by the server-error path. -/
structure ValidationErrors where
  maxlength : Option (Int × Int)
  email : Bool
  required : Bool
  min : Option (Int × Int)
  max : Option (Int × Int)
  pattern : Bool
  serverError : Option String
deriving DecidableEq, Repr

/-- A `ValidationErrors` object with no keys at all (never what Angular
produces, used only as a `getD` default in spec-side characterisations). -/
def noValidationErrors : ValidationErrors := ⟨none, false, false, none, none, false, none⟩

/-- The object `{serverError: m}` passed to `setErrors` by the mapper;
`m = none` models `{serverError: undefined}` (e.g. from `messages[0]` of an
empty array). -/
def serverErrorsOnly (m : Option String) : ValidationErrors :=
  ⟨none, false, false, none, none, false, m⟩

/-- The `AbstractControl` tree: `control` is a `FormControl` leaf with its
`errors`, `dirty` and `touched` flags; `group` is a `FormGroup` with named
children (a JS object: ordered, keys unique); `array` is a `FormArray` with
indexed rows.  Containers carry their own `errors` slot (set by `setErrors`). -/
inductive Node where
  | control (errors : Option ValidationErrors) (dirty : Bool) (touched : Bool)
  | group (controls : List (String × Node)) (errors : Option ValidationErrors)
  | array (controls : List Node) (errors : Option ValidationErrors)

/-- Own `errors` of a control (the JS `.errors` property). -/
def Node.errors : Node → Option ValidationErrors
  | .control e _ _ => e
  | .group _ e => e
  | .array _ e => e

mutual
/-- Angular `control.invalid`: a control is INVALID when it has its own errors
or (for containers) some child is invalid. -/
def Node.invalid : Node → Bool
  | .control e _ _ => e.isSome
  | .group cs e => e.isSome || Node.invalidChildren cs
  | .array rs e => e.isSome || Node.invalidList rs

def Node.invalidChildren : List (String × Node) → Bool
  | [] => false
  | p :: rest => p.2.invalid || Node.invalidChildren rest

def Node.invalidList : List Node → Bool
  | [] => false
  | n :: rest => n.invalid || Node.invalidList rest
end

mutual
/-- Angular `control.dirty`: a leaf stores the flag, a container is dirty when
some child is (the propagated flag in steady state). -/
def Node.dirty : Node → Bool
  | .control _ d _ => d
  | .group cs _ => Node.dirtyChildren cs
  | .array rs _ => Node.dirtyList rs

def Node.dirtyChildren : List (String × Node) → Bool
  | [] => false
  | p :: rest => p.2.dirty || Node.dirtyChildren rest

def Node.dirtyList : List Node → Bool
  | [] => false
  | n :: rest => n.dirty || Node.dirtyList rest
end

mutual
/-- Angular `control.touched`, propagated like `dirty`. -/
def Node.touched : Node → Bool
  | .control _ _ t => t
  | .group cs _ => Node.touchedChildren cs
  | .array rs _ => Node.touchedList rs

def Node.touchedChildren : List (String × Node) → Bool
  | [] => false
  | p :: rest => p.2.touched || Node.touchedChildren rest

def Node.touchedList : List Node → Bool
  | [] => false
  | n :: rest => n.touched || Node.touchedList rest
end

/-- `ErrorHandler.hasError` (line 19): `control.invalid && (control.dirty || control.touched)`. -/
def hasError (control : Node) : Bool :=
  control.invalid && (control.dirty || control.touched)

/-- A JS array property key, as `FormArray` resolves it (`controls[name]`): the
key must be the canonical decimal form of an index (`"01"` is not index 1). -/
def arrIndex (k : String) : Option Nat :=
  match k.toNat? with
  | some i => if toString i = k then some i else none
  | none => none

/-- One step of Angular `AbstractControl.get`: `_find(name)` on the current
node.  A `FormGroup` looks the name up among its children, a `FormArray`
indexes its rows, a `FormControl` has no children (returns `null`). -/
def Node.find1 : Node → String → Option Node
  | .group cs _, k => (cs.find? fun p => p.1 = k).map Prod.snd
  | .array rs _, k =>
    match arrIndex k with
    | some i => rs[i]?
    | none => none
  | .control _ _ _, _ => none

/-- Angular `AbstractControl.get` over an already-split dotted path:
`path.reduce((control, name) => control && control._find(name), this)`. -/
def Node.getPath (n : Node) (path : List String) : Option Node :=
  path.foldl (fun acc k => acc.bind fun m => m.find1 k) (some n)

/-- Splitting a character list on `'.'` (the core of JS `path.split('.')`),
written by structural recursion so that concrete paths compute. -/
def splitDotsAux : List Char → List (List Char)
  | [] => [[]]
  | c :: rest =>
    match splitDotsAux rest with
    | [] => [[]]
    | g :: gs => if c = '.' then [] :: g :: gs else (c :: g) :: gs

/-- Splitting a string path on `.`, as Angular `get` does (`path.split('.')`). -/
def dotted (s : String) : List String := (splitDotsAux s.data).map String.mk

/-- Angular `control.get(path)` with a string path. -/
def Node.getS (n : Node) (path : String) : Option Node := n.getPath (dotted path)

/-- Replace a node's own `errors` (the effect of `setErrors`). -/
def Node.withErrors : Node → Option ValidationErrors → Node
  | .control _ d t, e => .control e d t
  | .group cs _, e => .group cs e
  | .array rs _, e => .array rs e

/-- Update the first child with the given name (JS object keys are unique, and
lookup returns the first match). -/
def updateFirstChild (k : String) (f : Node → Node) : List (String × Node) → List (String × Node)
  | [] => []
  | p :: rest => if p.1 = k then (p.1, f p.2) :: rest else p :: updateFirstChild k f rest

/-- Update the row at index `i` of a `FormArray`. -/
def updateRow (i : Nat) (f : Node → Node) (rs : List Node) : List Node :=
  rs.enum.map fun p => if p.1 = i then f p.2 else p.2

/-- `control.setErrors({...})` on the control found at `path` below `n`: the JS
code mutates the object `get` returned, which in a persistent tree is the
update at that path.  On a path that does not resolve the tree is unchanged
(the callers only invoke this after a successful `get`). -/
def Node.setErrorsAt (n : Node) (path : List String) (e : Option ValidationErrors) : Node :=
  match path with
  | [] => n.withErrors e
  | k :: rest =>
    match n with
    | .group cs ge => .group (updateFirstChild k (fun c => c.setErrorsAt rest e) cs) ge
    | .array rs ae =>
      match arrIndex k with
      | some i => .array (updateRow i (fun c => c.setErrorsAt rest e) rs) ae
      | none => .array rs ae
    | .control er d t => .control er d t

/-- `setErrors` on the control found by `get` with a string path. -/
def Node.setErrorsAtS (n : Node) (path : String) (e : Option ValidationErrors) : Node :=
  n.setErrorsAt (dotted path) e

/-- The message of the TypeError a JS engine raises when `.get` is read on the
`null` returned by a failed lookup (line 95 of the source). -/
def typeErrorNullGet : String := "TypeError: cannot read property get of null"

/-- The TypeError raised when `setErrorMessage` dereferences a `null` errors
object (`errors.maxlength` with `errors === null`). -/
def typeErrorNullErrors : String := "TypeError: cannot read property maxlength of null"

/-- The TypeError raised by `Object.keys(undefined)` when a `FormArray` row is
cast to `FormGroup` but has no `controls` object. -/
def typeErrorKeysUndefined : String := "TypeError: cannot convert undefined to object"

/-- A top-level value of the server payload: either an array of message strings
(leaf errors) or a one-level nested mapping from sub-field name to message. -/
inductive ServerErrorValue where
  | messages (msgs : List String)
  | nested (fields : List (String × String))

/-- The argument of `organizeServerErrors` when truthy: a JS object (entry list
with unique keys, in insertion order), or a JS array — which
`Array.isArray` detects and the mapper refuses. -/
inductive ServerErrorPayload where
  | object (entries : List (String × ServerErrorValue))
  | array (items : List String)

/-- `setErrorsToNestedFields` (lines 87–101): for each inner key of the nested
mapping, first try `this.form.get(field)` (flat lookup at the root) and set
`{serverError: message}` there; otherwise `this.form.get(nestedFieldName)` —
which throws a TypeError if the outer name resolves to nothing, since the code
calls `.get` on the `null` result — then look the inner key up inside it and
set the error there; when that inner lookup also misses, the entry is skipped.
Returns the updated form and the exception that escaped, if any; `forEach`
stops when an exception is thrown. -/
def setErrorsToNestedFields (nestedFieldName : String) :
    List (String × String) → Node → Node × Option String
  | [], form => (form, none)
  | (field, msg) :: rest, form =>
    match form.getS field with
    | some _ =>
      setErrorsToNestedFields nestedFieldName rest
        (form.setErrorsAtS field (some (serverErrorsOnly (some msg))))
    | none =>
      match form.getS nestedFieldName with
      | none => (form, some typeErrorNullGet)
      | some nestedForm =>
        match nestedForm.getS field with
        | some _ =>
          setErrorsToNestedFields nestedFieldName rest
            (form.setErrorsAt (dotted nestedFieldName ++ dotted field)
              (some (serverErrorsOnly (some msg))))
        | none => setErrorsToNestedFields nestedFieldName rest form

/-- `setErrorToFormFields` (lines 72–81): for each top-level key of the server
payload, a non-array value goes through `setErrorsToNestedFields`, and an array
value sets `{serverError: messages[0]}` on the control found at that key (the
optional chaining `?.` skips a failed lookup without throwing). -/
def setErrorToFormFields : List (String × ServerErrorValue) → Node → Node × Option String
  | [], form => (form, none)
  | (field, .nested m) :: rest, form =>
    match setErrorsToNestedFields field m form with
    | (f, some e) => (f, some e)
    | (f, none) => setErrorToFormFields rest f
  | (field, .messages msgs) :: rest, form =>
    match form.getS field with
    | some _ =>
      setErrorToFormFields rest (form.setErrorsAtS field (some (serverErrorsOnly msgs.head?)))
    | none => setErrorToFormFields rest form

/-- Result of `organizeServerErrors`: the form tree after the call, whether the
malformed-payload fallback fired (`alert` + `console.log`), and the exception
that escaped, if any. -/
structure OrganizeResult where
  form : Node
  malformedAlert : Bool
  exn : Option String

/-- `organizeServerErrors` (lines 30–42): a falsy (`null`/`undefined`) payload
is a no-op; an array payload triggers the alert/log fallback and nothing else;
an object payload is dispatched to `setErrorToFormFields`. -/
def organizeServerErrors (serverError : Option ServerErrorPayload) (form : Node) :
    OrganizeResult :=
  match serverError with
  | none => ⟨form, false, none⟩
  | some (.array _) => ⟨form, true, none⟩
  | some (.object entries) =>
    match setErrorToFormFields entries form with
    | (f, ex) => ⟨f, false, ex⟩

/-- A value of the external `errorObject` accumulator: a plain message string
for a leaf field, or (for a `FormArray` name) an ordered sequence of per-row
mappings from field name to message. -/
inductive AccEntry where
  | message (s : String)
  | rowErrors (rows : List (List (String × String)))
deriving DecidableEq, Repr

/-- The external accumulator: a JS object, i.e. an ordered entry list with
unique keys. -/
def ErrorObject := List (String × AccEntry)
deriving DecidableEq, Repr

/-- `Object.defineProperty(obj, key, {value, writable: true})`: overwrite the
existing property in place, or append a new one. -/
def defineProperty : ErrorObject → String → AccEntry → ErrorObject
  | [], k, v => [(k, v)]
  | p :: rest, k, v => if p.1 = k then (k, v) :: rest else p :: defineProperty rest k v

/-- Property read `obj[key]`. -/
def getProp : ErrorObject → String → Option AccEntry
  | [], _ => none
  | p :: rest, k => if p.1 = k then some p.2 else getProp rest k

/-- `setErrorToErrorObject` (lines 173–175), with the just-computed message
passed explicitly instead of through the `this.message` instance field (every
call site assigns `this.message` immediately before). -/
def setErrorToErrorObject (errorObject : ErrorObject) (field : String) (message : String) :
    ErrorObject :=
  defineProperty errorObject field (.message message)

/-- `setErrorMessage` (lines 149–167): the fixed priority chain over the keys
of the `ValidationErrors` object, reflecting JS truthiness (an empty-string
`serverError` is falsy, so it also yields the empty message). -/
def setErrorMessage (errors : ValidationErrors) : String :=
  match errors.maxlength with
  | some (actualLength, requiredLength) =>
    "Gjatësia maksimale e lejuar " ++ toString actualLength ++ "/" ++ toString requiredLength
  | none =>
    if errors.email then "Email nuk është i saktë"
    else if errors.required then "Fushë e detyrueshme"
    else
      match errors.min with
      | some (mn, actual) =>
        "Vlera minimale është " ++ toString mn ++ ", vlera aktuale " ++ toString actual
      | none =>
        match errors.max with
        | some (mx, actual) =>
          "Vlera maksimale është " ++ toString mx ++ ", vlera aktuale " ++ toString actual
        | none =>
          if errors.pattern then "Vlera e dhënë nuk është e saktë"
          else
            match errors.serverError with
            | some s => if s = "" then "" else s
            | none => ""

/-- The `controls` property read from a `FormArray` row after the cast to
`FormGroup`: a group exposes its named children, a `FormArray` exposes its rows
under their index keys, a `FormControl` has no such property (`undefined`). -/
def Node.rowControls : Node → Option (List (String × Node))
  | .group cs _ => some cs
  | .array rs _ => some (rs.enum.map fun p => (toString p.1, p.2))
  | .control _ _ _ => none

/-- The body of the inner `forEach` of `findErrorsOnFormArrays` (lines
127–132) over one row's controls: each control satisfying `hasError` writes
`{name: message}` into the row mapping, in iteration order.  A container
control that is invalid through a child while its own `errors` is `null` makes
`setErrorMessage(null)` throw. -/
def processRowControls : List (String × Node) → List (String × String) × Option String
  | [] => ([], none)
  | (name, c) :: rest =>
    if hasError c then
      match c.errors with
      | some e =>
        match processRowControls rest with
        | (m, ex) => ((name, setErrorMessage e) :: m, ex)
      | none => ([], some typeErrorNullErrors)
    else processRowControls rest

/-- `findErrorsOnFormArrays` (lines 121–135) restricted to its effect on the
accumulator slot: for each row in order, push an empty mapping and fill it from
the row's controls.  A row with no `controls` object pushes its empty mapping
and then throws on `Object.keys(undefined)`; an exception leaves the rows
written so far in place. -/
def findErrorsOnFormArrays : List Node → List (List (String × String)) × Option String
  | [] => ([], none)
  | r :: rest =>
    match r.rowControls with
    | none => ([[]], some typeErrorKeysUndefined)
    | some cs =>
      match processRowControls cs with
      | (row, some e) => ([row], some e)
      | (row, none) =>
        match findErrorsOnFormArrays rest with
        | (rows, ex2) => (row :: rows, ex2)

/-- `findErrorsOnFormControls` (lines 137–142): a `FormControl` satisfying
`hasError` records its message in the accumulator under its name. -/
def findErrorsOnFormControls (c : Node) (control : String) (errorObject : ErrorObject) :
    ErrorObject × Option String :=
  if hasError c then
    match c.errors with
    | some e => (setErrorToErrorObject errorObject control (setErrorMessage e), none)
    | none => (errorObject, some typeErrorNullErrors)
  else (errorObject, none)

/-- `findErrors` (lines 109–119): iterate the root's children in declaration
order; a `FormArray` child resets its accumulator slot to `[]` and is scanned
row by row, a `FormControl` child goes through `findErrorsOnFormControls`, and
any other child (a nested `FormGroup`) is skipped. -/
def findErrors : List (String × Node) → ErrorObject → ErrorObject × Option String
  | [], errorObject => (errorObject, none)
  | (control, c) :: rest, errorObject =>
    match c with
    | .array rows _ =>
      let eo1 := defineProperty errorObject control (.rowErrors [])
      match findErrorsOnFormArrays rows with
      | (rows2, ex) =>
        let eo2 := defineProperty eo1 control (.rowErrors rows2)
        match ex with
        | some e => (eo2, some e)
        | none => findErrors rest eo2
    | .control _ _ _ =>
      match findErrorsOnFormControls c control errorObject with
      | (eo1, some e) => (eo1, some e)
      | (eo1, none) => findErrors rest eo1
    | .group _ _ => findErrors rest errorObject

/-! ## Example forms used in concrete parts of the claims -/

/-- A root form with a leaf `name` and a nested group `address` containing
`city` and `zip`; the root has no direct `city` child. -/
def exampleAddressForm : Node := Node.group
  [("name", Node.control none false false),
   ("address", Node.group
      [("city", Node.control none false false),
       ("zip", Node.control none false false)] none)] none

/-- The `address` subgroup of `exampleAddressForm`. -/
def exampleAddressGroup : Node := Node.group
  [("city", Node.control none false false),
   ("zip", Node.control none false false)] none

/-- A root form with a single leaf `alpha`. -/
def singleAlphaForm : Node := Node.group [("alpha", Node.control none false false)] none

/-- A root form with a single leaf `email`. -/
def emailExampleForm : Node := Node.group [("email", Node.control none false false)] none

/-! ## Claim theorems: server-error mapper -/

/-- C1: for a nested server-error entry, each inner key is resolved by a
two-tier lookup — first a flat lookup of the inner key at the root form, where
a hit attaches `{serverError: message}` directly; only otherwise the control
named by the outer key is fetched and the inner key is attached inside it.  In
particular the payload `{"address": {"city": "Required"}}` on a root without a
direct `city` but with a group `address` containing `city` attaches the message
to `address.city`. -/
theorem nested_two_tier_lookup :
    (∀ (form : Node) (outer field msg : String) (rest : List (String × String)),
      (form.getS field).isSome = true →
        setErrorsToNestedFields outer ((field, msg) :: rest) form =
          setErrorsToNestedFields outer rest
            (form.setErrorsAtS field (some (serverErrorsOnly (some msg))))) ∧
    (∀ (form : Node) (outer field msg : String) (rest : List (String × String)) (g : Node),
      form.getS field = none → form.getS outer = some g → (g.getS field).isSome = true →
        setErrorsToNestedFields outer ((field, msg) :: rest) form =
          setErrorsToNestedFields outer rest
            (form.setErrorsAt (dotted outer ++ dotted field)
              (some (serverErrorsOnly (some msg))))) ∧
    ((organizeServerErrors
        (some (.object [("address", .nested [("city", "Required")])]))
        exampleAddressForm).form.getS "address.city" |>.map Node.errors)
      = some (some (serverErrorsOnly (some "Required"))) ∧
    exampleAddressForm.getS "city" = none := by
  refine ⟨?_, ?_, rfl, rfl⟩
  · intro form outer field msg rest h
    obtain ⟨v, hv⟩ := Option.isSome_iff_exists.mp h
    simp [setErrorsToNestedFields, hv]
  · intro form outer field msg rest g h1 h2 h3
    obtain ⟨v, hv⟩ := Option.isSome_iff_exists.mp h3
    simp [setErrorsToNestedFields, h1, h2, hv]

/-- Witness for C1: both lookup tiers exercised on `exampleAddressForm` — the
inner key `name` hits the flat lookup, the inner key `city` misses it and is
attached through the `address` group. -/
theorem nested_two_tier_lookup_witness :
    setErrorsToNestedFields "address" [("name", "m1")] exampleAddressForm =
      (exampleAddressForm.setErrorsAtS "name" (some (serverErrorsOnly (some "m1"))), none) ∧
    setErrorsToNestedFields "address" [("city", "m2")] exampleAddressForm =
      (exampleAddressForm.setErrorsAt (dotted "address" ++ dotted "city")
        (some (serverErrorsOnly (some "m2"))), none) := by
  constructor
  · exact (nested_two_tier_lookup.1 exampleAddressForm "address" "name" "m1" [] rfl).trans rfl
  · exact (nested_two_tier_lookup.2.1 exampleAddressForm "address" "city" "m2" []
      exampleAddressGroup rfl rfl rfl).trans rfl

/-- C2 counterexample: the claim asserts that a nested entry whose inner key
misses the root and whose outer key names no member of the root is dropped
silently with no exception; but the code calls `.get` on the `null` result of
`this.form.get(nestedFieldName)`, so payload `{"missing": {"beta": "m"}}` on a
form whose only child is `alpha` throws a TypeError. -/
theorem nested_both_lookups_miss_cex :
    (organizeServerErrors (some (.object [("missing", .nested [("beta", "m")])]))
        singleAlphaForm).exn = some typeErrorNullGet := rfl

/-- C2 amended: a nested entry for which both lookups miss is dropped silently
— no exception, no change to any field — provided the outer key resolves to
some control of the root form; when the outer key resolves to nothing at all,
the mapper instead throws a TypeError and leaves the form unchanged. -/
theorem nested_both_lookups_miss_amended :
    (∀ (form : Node) (outer field msg : String) (rest : List (String × String)) (g : Node),
      form.getS field = none → form.getS outer = some g → g.getS field = none →
        setErrorsToNestedFields outer ((field, msg) :: rest) form =
          setErrorsToNestedFields outer rest form) ∧
    (∀ (form : Node) (outer field msg : String) (rest : List (String × String)),
      form.getS field = none → form.getS outer = none →
        setErrorsToNestedFields outer ((field, msg) :: rest) form =
          (form, some typeErrorNullGet)) := by
  constructor
  · intro form outer field msg rest g h1 h2 h3
    simp [setErrorsToNestedFields, h1, h2, h3]
  · intro form outer field msg rest h1 h2
    simp [setErrorsToNestedFields, h1, h2]

/-- Witness for the amended C2: on the `alpha`-only form, the entry
`("beta", "m")` under the existing outer key `alpha` is dropped silently, and
under the missing outer key `missing` it throws. -/
theorem nested_both_lookups_miss_amended_witness :
    setErrorsToNestedFields "alpha" [("beta", "m")] singleAlphaForm =
      setErrorsToNestedFields "alpha" [] singleAlphaForm ∧
    setErrorsToNestedFields "missing" [("beta", "m")] singleAlphaForm =
      (singleAlphaForm, some typeErrorNullGet) := by
  constructor
  · exact nested_both_lookups_miss_amended.1 singleAlphaForm "alpha" "beta" "m" []
      (Node.control none false false) rfl rfl rfl
  · exact nested_both_lookups_miss_amended.2 singleAlphaForm "missing" "beta" "m" [] rfl rfl

/-- C3: a top-level payload entry whose value is a list of messages attaches
only the first message as `{serverError: first}` on the control found at that
key; e.g. `{"email": ["Email taken", "second"]}` leaves `email` carrying
`serverError = "Email taken"`. -/
theorem flat_first_message :
    (∀ (form : Node) (field m : String) (tl : List String)
        (rest : List (String × ServerErrorValue)),
      (form.getS field).isSome = true →
        setErrorToFormFields ((field, .messages (m :: tl)) :: rest) form =
          setErrorToFormFields rest
            (form.setErrorsAtS field (some (serverErrorsOnly (some m))))) ∧
    ((organizeServerErrors
        (some (.object [("email", .messages ["Email taken", "second"])]))
        emailExampleForm).form.getS "email" |>.map Node.errors)
      = some (some (serverErrorsOnly (some "Email taken"))) ∧
    (organizeServerErrors
        (some (.object [("email", .messages ["Email taken", "second"])]))
        emailExampleForm).exn = none := by
  refine ⟨?_, rfl, rfl⟩
  intro form field m tl rest h
  obtain ⟨v, hv⟩ := Option.isSome_iff_exists.mp h
  simp [setErrorToFormFields, hv]

/-- Witness for C3: the flat branch applied on `emailExampleForm`. -/
theorem flat_first_message_witness :
    setErrorToFormFields [("email", .messages ["Email taken", "second"])] emailExampleForm =
      (emailExampleForm.setErrorsAtS "email" (some (serverErrorsOnly (some "Email taken"))),
        none) := by
  exact (flat_first_message.1 emailExampleForm "email" "Email taken" ["second"] [] rfl).trans rfl

/-- C7: an array-shaped payload makes the mapper refuse: the form is returned
untouched (no per-field assignment), the malformed-payload fallback
(alert + diagnostic log) fires, and no exception escapes. -/
theorem malformed_payload_fallback (items : List String) (form : Node) :
    organizeServerErrors (some (.array items)) form = ⟨form, true, none⟩ := rfl

/-- C10: a falsy (`null`/`undefined`) payload makes `organizeServerErrors` a
complete no-op: the form is unchanged, no fallback fires, no exception. -/
theorem null_payload_noop (form : Node) :
    organizeServerErrors none form = ⟨form, false, none⟩ := rfl

/-! ## Claim theorems: message formatter and scanner -/

/-- C4: `setErrorMessage` checks the failure kinds in the fixed priority order
maxlength, email, required, min, max, pattern, serverError, and produces
exactly the message of the first kind present; the length and range kinds
interpolate the configured bound and the actual value; a `ValidationErrors`
object matching no entry yields the empty string (and, being a total function,
never an exception).  The `serverError` message follows JS truthiness, so an
empty-string value also yields the empty message. -/
theorem setErrorMessage_priority :
    (∀ (e : ValidationErrors) (a r : Int), e.maxlength = some (a, r) →
      setErrorMessage e = "Gjatësia maksimale e lejuar " ++ toString a ++ "/" ++ toString r) ∧
    (∀ e : ValidationErrors, e.maxlength = none → e.email = true →
      setErrorMessage e = "Email nuk është i saktë") ∧
    (∀ e : ValidationErrors, e.maxlength = none → e.email = false → e.required = true →
      setErrorMessage e = "Fushë e detyrueshme") ∧
    (∀ (e : ValidationErrors) (b a : Int), e.maxlength = none → e.email = false →
      e.required = false → e.min = some (b, a) →
      setErrorMessage e = "Vlera minimale është " ++ toString b ++ ", vlera aktuale " ++ toString a) ∧
    (∀ (e : ValidationErrors) (b a : Int), e.maxlength = none → e.email = false →
      e.required = false → e.min = none → e.max = some (b, a) →
      setErrorMessage e = "Vlera maksimale është " ++ toString b ++ ", vlera aktuale " ++ toString a) ∧
    (∀ e : ValidationErrors, e.maxlength = none → e.email = false → e.required = false →
      e.min = none → e.max = none → e.pattern = true →
      setErrorMessage e = "Vlera e dhënë nuk është e saktë") ∧
    (∀ (e : ValidationErrors) (s : String), e.maxlength = none → e.email = false →
      e.required = false → e.min = none → e.max = none → e.pattern = false →
      e.serverError = some s →
      setErrorMessage e = if s = "" then "" else s) ∧
    (∀ e : ValidationErrors, e.maxlength = none → e.email = false → e.required = false →
      e.min = none → e.max = none → e.pattern = false → e.serverError = none →
      setErrorMessage e = "") := by
  refine ⟨?_, ?_, ?_, ?_, ?_, ?_, ?_, ?_⟩ <;>
    intros <;> simp_all [setErrorMessage]

/-- Witness for C4: every branch of the priority chain evaluated at a concrete
`ValidationErrors` object; the range kinds show both the bound and the actual
value (e.g. min bound 5, actual 2). -/
theorem setErrorMessage_priority_witness :
    setErrorMessage ⟨some (12, 10), true, true, none, none, false, none⟩ =
      "Gjatësia maksimale e lejuar 12/10" ∧
    setErrorMessage ⟨none, true, true, none, none, false, none⟩ = "Email nuk është i saktë" ∧
    setErrorMessage ⟨none, false, true, some (5, 2), none, false, none⟩ = "Fushë e detyrueshme" ∧
    setErrorMessage ⟨none, false, false, some (5, 2), none, false, none⟩ =
      "Vlera minimale është 5, vlera aktuale 2" ∧
    setErrorMessage ⟨none, false, false, none, some (9, 11), false, none⟩ =
      "Vlera maksimale është 9, vlera aktuale 11" ∧
    setErrorMessage ⟨none, false, false, none, none, true, some "srv"⟩ =
      "Vlera e dhënë nuk është e saktë" ∧
    setErrorMessage ⟨none, false, false, none, none, false, some "Email taken"⟩ = "Email taken" ∧
    setErrorMessage ⟨none, false, false, none, none, false, none⟩ = "" := by
  refine ⟨?_, ?_, ?_, ?_, ?_, ?_, ?_, ?_⟩
  · exact (setErrorMessage_priority.1 ⟨some (12, 10), true, true, none, none, false, none⟩
      12 10 rfl).trans rfl
  · exact setErrorMessage_priority.2.1 ⟨none, true, true, none, none, false, none⟩ rfl rfl
  · exact setErrorMessage_priority.2.2.1 ⟨none, false, true, some (5, 2), none, false, none⟩
      rfl rfl rfl
  · exact (setErrorMessage_priority.2.2.2.1 ⟨none, false, false, some (5, 2), none, false, none⟩
      5 2 rfl rfl rfl rfl).trans rfl
  · exact (setErrorMessage_priority.2.2.2.2.1
      ⟨none, false, false, none, some (9, 11), false, none⟩ 9 11 rfl rfl rfl rfl rfl).trans rfl
  · exact setErrorMessage_priority.2.2.2.2.2.1 ⟨none, false, false, none, none, true, some "srv"⟩
      rfl rfl rfl rfl rfl rfl
  · exact (setErrorMessage_priority.2.2.2.2.2.2.1
      ⟨none, false, false, none, none, false, some "Email taken"⟩ "Email taken"
      rfl rfl rfl rfl rfl rfl rfl).trans (by decide)
  · exact setErrorMessage_priority.2.2.2.2.2.2.2
      ⟨none, false, false, none, none, false, none⟩ rfl rfl rfl rfl rfl rfl rfl

/-- C9: the local-validation scan does not descend into a non-repeating
`FormGroup` child — such a child contributes nothing: the scan of the
remaining children proceeds on an untouched accumulator, whatever the validity
or interaction state of the nested fields. -/
theorem group_child_skipped (name : String) (cs : List (String × Node))
    (e : Option ValidationErrors) (rest : List (String × Node)) (acc : ErrorObject) :
    findErrors ((name, Node.group cs e) :: rest) acc = findErrors rest acc := rfl

/-! ## Spec-side characterisation of the scan -/

/-- A leaf `FormControl`. -/
def Node.isLeaf : Node → Bool
  | .control _ _ _ => true
  | _ => false

/-- A `FormArray` row of the shape the spec describes: a `FormGroup` whose
children are all leaf fields. -/
def rowIsGroupOfLeaves : Node → Bool
  | .group cs _ => cs.all fun p => p.2.isLeaf
  | _ => false

/-- Modelled from the spec's words (§4.3): the per-row mapping a scan should
produce — one entry per field of the row that is currently invalid and (dirty
or touched), bound to that field's formatted message, in declaration order. -/
def rowMessages (cs : List (String × Node)) : List (String × String) :=
  cs.filterMap fun p =>
    if hasError p.2 then some (p.1, setErrorMessage (p.2.errors.getD noValidationErrors))
    else none

/-- The expected accumulator value for one `FormArray` row. -/
def rowOutput : Node → List (String × String)
  | .group cs _ => rowMessages cs
  | _ => []

/-- On a row whose controls are all leaves, the inner loop of
`findErrorsOnFormArrays` computes exactly `rowMessages` and cannot throw. -/
theorem processRowControls_leaves (cs : List (String × Node))
    (h : (cs.all fun p => p.2.isLeaf) = true) :
    processRowControls cs = (rowMessages cs, none) := by
  induction cs with
  | nil => rfl
  | cons p rest ih =>
    rw [List.all_cons, Bool.and_eq_true] at h
    obtain ⟨hp, hrest⟩ := h
    have ih2 := ih hrest
    obtain ⟨name, c⟩ := p
    cases c with
    | control e d t =>
      by_cases he : hasError (Node.control e d t) = true
      · have hes : e.isSome = true := by
          have h2 := he
          rw [hasError, Bool.and_eq_true] at h2
          simpa [Node.invalid] using h2.1
        obtain ⟨v, hv⟩ := Option.isSome_iff_exists.mp hes
        subst hv
        simp [processRowControls, rowMessages, he, ih2, Node.errors]
      · rw [Bool.not_eq_true] at he
        simp [processRowControls, rowMessages, he, ih2]
    | group cs2 e2 => simp [Node.isLeaf] at hp
    | array rs2 e2 => simp [Node.isLeaf] at hp

/-- On a `FormArray` whose rows are all groups of leaves,
`findErrorsOnFormArrays` computes `rowOutput` row by row and cannot throw. -/
theorem findErrorsOnFormArrays_wf (rows : List Node)
    (h : (rows.all rowIsGroupOfLeaves) = true) :
    findErrorsOnFormArrays rows = (rows.map rowOutput, none) := by
  induction rows with
  | nil => rfl
  | cons r rest ih =>
    rw [List.all_cons, Bool.and_eq_true] at h
    obtain ⟨hr, hrest⟩ := h
    cases r with
    | group cs e =>
      have hcs : (cs.all fun p => p.2.isLeaf) = true := by
        simpa [rowIsGroupOfLeaves] using hr
      simp [findErrorsOnFormArrays, Node.rowControls, processRowControls_leaves cs hcs,
        ih hrest, rowOutput]
    | control e d t => simp [rowIsGroupOfLeaves] at hr
    | array rs2 e2 => simp [rowIsGroupOfLeaves] at hr

/-- Two consecutive writes to the same key collapse to the second one. -/
theorem defineProperty_defineProperty (m : ErrorObject) (k : String) (v w : AccEntry) :
    defineProperty (defineProperty m k v) k w = defineProperty m k w := by
  induction m with
  | nil => simp [defineProperty]
  | cons p rest ih =>
    by_cases hp : p.1 = k
    · simp [defineProperty, hp]
    · simp [defineProperty, hp, ih]

/-- Example `FormArray` rows: three groups of leaves with different
invalid/interacted mixes. -/
def exampleItemsRows : List Node :=
  [Node.group [("a", Node.control (some ⟨none, false, true, none, none, false, none⟩) true false),
               ("b", Node.control none false false)] none,
   Node.group [("a", Node.control none false false)] none,
   Node.group [("b", Node.control (some (serverErrorsOnly (some "boom"))) false true)] none]

/-- C5: scanning a `FormArray` child whose rows are groups of leaf fields
replaces that child's accumulator slot with a fresh sequence of exactly one
mapping per row, in row order (`rows.map rowOutput`), and the scan of the
remaining children continues on that accumulator; a pair `(nm, s)` belongs to
a row's mapping exactly when the row has a field `nm` that is currently
invalid and (dirty or touched) and `s` is its formatted message. -/
theorem formArray_scan_rows :
    (∀ (name : String) (rows : List Node) (e : Option ValidationErrors)
        (rest : List (String × Node)) (acc : ErrorObject),
      (rows.all rowIsGroupOfLeaves) = true →
        findErrors ((name, Node.array rows e) :: rest) acc =
          findErrors rest (defineProperty acc name (.rowErrors (rows.map rowOutput))) ∧
        (rows.map rowOutput).length = rows.length) ∧
    (∀ (cs : List (String × Node)) (nm s : String),
      (nm, s) ∈ rowMessages cs ↔
        ∃ c, (nm, c) ∈ cs ∧ hasError c = true ∧
          s = setErrorMessage (c.errors.getD noValidationErrors)) := by
  constructor
  · intro name rows e rest acc h
    refine ⟨?_, by simp⟩
    simp [findErrors, findErrorsOnFormArrays_wf rows h, defineProperty_defineProperty]
  · intro cs nm s
    constructor
    · intro hmem
      rw [rowMessages, List.mem_filterMap] at hmem
      obtain ⟨p, hp, hf⟩ := hmem
      by_cases hhe : hasError p.2 = true
      · rw [if_pos hhe] at hf
        obtain ⟨h1, h2⟩ := Prod.mk.injEq .. |>.mp (Option.some_injective _ hf)
        refine ⟨p.2, ?_, hhe, h2.symm⟩
        rw [← h1]
        simpa using hp
      · rw [Bool.not_eq_true] at hhe
        simp [hhe] at hf
    · rintro ⟨c, hc, hhe, hs⟩
      rw [rowMessages, List.mem_filterMap]
      exact ⟨(nm, c), hc, by simp [hhe, hs]⟩

/-- Witness for C5: the three-row `items` array produces exactly three per-row
mappings — the first row only lists its interacted invalid field `a`, the
untouched second row is empty, the third lists `b` with its server message. -/
theorem formArray_scan_rows_witness :
    findErrors [("items", Node.array exampleItemsRows none)] [] =
      findErrors [] (defineProperty [] "items" (.rowErrors (exampleItemsRows.map rowOutput))) ∧
    (exampleItemsRows.map rowOutput).length = exampleItemsRows.length ∧
    exampleItemsRows.map rowOutput = [[("a", "Fushë e detyrueshme")], [], [("b", "boom")]] := by
  have h := formArray_scan_rows.1 "items" exampleItemsRows none [] [] rfl
  exact ⟨h.1, h.2, rfl⟩

/-- C6: a leaf `FormControl` child writes its formatted message into the
accumulator under its name exactly when it is invalid and (dirty or touched);
otherwise the scan continues with the accumulator untouched, so a valid or
un-interacted field never gains or loses an entry. -/
theorem formControl_scan_iff (e : Option ValidationErrors) (d t : Bool) (name : String)
    (rest : List (String × Node)) (acc : ErrorObject) :
    (hasError (Node.control e d t) = true →
      findErrors ((name, Node.control e d t) :: rest) acc =
        findErrors rest
          (defineProperty acc name (.message (setErrorMessage (e.getD noValidationErrors))))) ∧
    (hasError (Node.control e d t) = false →
      findErrors ((name, Node.control e d t) :: rest) acc = findErrors rest acc) := by
  constructor
  · intro h
    have hes : e.isSome = true := by
      have h2 := h
      rw [hasError, Bool.and_eq_true] at h2
      simpa [Node.invalid] using h2.1
    obtain ⟨v, hv⟩ := Option.isSome_iff_exists.mp hes
    subst hv
    simp [findErrors, findErrorsOnFormControls, h, Node.errors, setErrorToErrorObject]
  · intro h
    simp [findErrors, findErrorsOnFormControls, h]

/-- Witness for C6: a required+dirty field writes its message; the same field
valid (or untouched) leaves the accumulator unchanged. -/
theorem formControl_scan_iff_witness :
    findErrors [("x", Node.control (some ⟨none, false, true, none, none, false, none⟩) true false)]
        [("keep", .message "old")] =
      findErrors []
        (defineProperty [("keep", .message "old")] "x" (.message "Fushë e detyrueshme")) ∧
    findErrors [("x", Node.control none false false)] [("keep", .message "old")] =
      findErrors [] [("keep", .message "old")] := by
  constructor
  · exact (formControl_scan_iff (some ⟨none, false, true, none, none, false, none⟩) true false
      "x" [] [("keep", .message "old")]).1 rfl
  · exact (formControl_scan_iff none false false "x" [] [("keep", .message "old")]).2 rfl

/-! ## Idempotence of the scan -/

/-- Well-formedness of the root's children for a scan: every `FormArray` child
has rows that are groups of leaf fields (the shape the source casts them to). -/
def controlsScanWF (controls : List (String × Node)) : Bool :=
  controls.all fun p =>
    match p.2 with
    | .array rows _ => rows.all rowIsGroupOfLeaves
    | _ => true

/-- The sequence of accumulator writes a scan performs, as `(key, value)`
pairs; each value depends only on the form tree, never on the accumulator. -/
def scanOps : List (String × Node) → List (String × AccEntry)
  | [] => []
  | (name, c) :: rest =>
    match c with
    | .array rows _ => (name, .rowErrors (rows.map rowOutput)) :: scanOps rest
    | .control e _ _ =>
      if hasError c then (name, .message (setErrorMessage (e.getD noValidationErrors))) :: scanOps rest
      else scanOps rest
    | .group _ _ => scanOps rest

/-- Replaying a write sequence onto an accumulator. -/
def applyOps (ops : List (String × AccEntry)) (acc : ErrorObject) : ErrorObject :=
  ops.foldl (fun a p => defineProperty a p.1 p.2) acc

/-- Reading a key just written returns the written value. -/
theorem getProp_defineProperty_self (m : ErrorObject) (k : String) (v : AccEntry) :
    getProp (defineProperty m k v) k = some v := by
  induction m with
  | nil => simp [defineProperty, getProp]
  | cons p rest ih =>
    by_cases hp : p.1 = k
    · simp [defineProperty, getProp, hp]
    · simp [defineProperty, getProp, hp, ih]

/-- Writing one key does not change another. -/
theorem getProp_defineProperty_ne (m : ErrorObject) (k k2 : String) (v : AccEntry)
    (h : k ≠ k2) : getProp (defineProperty m k2 v) k = getProp m k := by
  have h2 : ¬(k2 = k) := fun he => h he.symm
  induction m with
  | nil => simp [defineProperty, getProp, h2]
  | cons p rest ih =>
    by_cases hp : p.1 = k2
    · simp [defineProperty, getProp, hp, h2]
    · simp [defineProperty, getProp, hp, ih]

/-- Writes to keys other than `k` leave `k`'s value alone. -/
theorem getProp_applyOps_not_mem (ops : List (String × AccEntry)) (m : ErrorObject)
    (k : String) (h : k ∉ ops.map Prod.fst) :
    getProp (applyOps ops m) k = getProp m k := by
  induction ops generalizing m with
  | nil => rfl
  | cons p rest ih =>
    rw [List.map_cons, List.mem_cons, not_or] at h
    exact (ih _ h.2).trans (getProp_defineProperty_ne m k p.1 p.2 h.1)

/-- Overwriting a key with the value it already holds is a no-op. -/
theorem defineProperty_eq_of_getProp (m : ErrorObject) (k : String) (v : AccEntry)
    (h : getProp m k = some v) : defineProperty m k v = m := by
  induction m with
  | nil => simp [getProp] at h
  | cons p rest ih =>
    by_cases hp : p.1 = k
    · rw [getProp, if_pos hp] at h
      obtain ⟨k1, v1⟩ := p
      obtain rfl : k1 = k := hp
      obtain rfl : v1 = v := Option.some_injective _ h
      simp [defineProperty]
    · rw [getProp, if_neg hp] at h
      simp [defineProperty, hp, ih h]

/-- Replaying a write sequence with pairwise distinct keys twice equals
replaying it once. -/
theorem applyOps_applyOps (ops : List (String × AccEntry))
    (h : (ops.map Prod.fst).Nodup) (acc : ErrorObject) :
    applyOps ops (applyOps ops acc) = applyOps ops acc := by
  induction ops generalizing acc with
  | nil => rfl
  | cons p rest ih =>
    rw [List.map_cons, List.nodup_cons] at h
    obtain ⟨hk, hrest⟩ := h
    show applyOps rest (defineProperty (applyOps rest (defineProperty acc p.1 p.2)) p.1 p.2) =
      applyOps rest (defineProperty acc p.1 p.2)
    have hget : getProp (applyOps rest (defineProperty acc p.1 p.2)) p.1 = some p.2 :=
      (getProp_applyOps_not_mem rest _ p.1 hk).trans
        (getProp_defineProperty_self acc p.1 p.2)
    rw [defineProperty_eq_of_getProp _ _ _ hget]
    exact ih hrest (defineProperty acc p.1 p.2)

/-- The write sequence reuses the children's names, in order. -/
theorem scanOps_keys_sublist (controls : List (String × Node)) :
    List.Sublist ((scanOps controls).map Prod.fst) (controls.map Prod.fst) := by
  induction controls with
  | nil => exact List.Sublist.refl _
  | cons p rest ih =>
    obtain ⟨name, c⟩ := p
    cases c with
    | array rows e => simpa [scanOps] using ih.cons₂ name
    | group cs e => simpa [scanOps] using ih.cons name
    | control e d t =>
      by_cases hhe : hasError (Node.control e d t) = true
      · simpa [scanOps, hhe] using ih.cons₂ name
      · rw [Bool.not_eq_true] at hhe
        simpa [scanOps, hhe] using ih.cons name

/-- On well-formed children a scan is exactly the replay of its write
sequence, and no exception escapes. -/
theorem findErrors_eq_applyOps (controls : List (String × Node)) (acc : ErrorObject)
    (h : controlsScanWF controls = true) :
    findErrors controls acc = (applyOps (scanOps controls) acc, none) := by
  induction controls generalizing acc with
  | nil => rfl
  | cons p rest ih =>
    rw [controlsScanWF, List.all_cons, Bool.and_eq_true] at h
    obtain ⟨hp, hrest⟩ := h
    have ih2 := fun acc => ih acc hrest
    obtain ⟨name, c⟩ := p
    cases c with
    | array rows e =>
      have hrows : (rows.all rowIsGroupOfLeaves) = true := by simpa using hp
      simp [findErrors, findErrorsOnFormArrays_wf rows hrows, defineProperty_defineProperty,
        scanOps, applyOps, ih2]
    | group cs e => simpa [findErrors, scanOps] using ih2 acc
    | control e d t =>
      by_cases hhe : hasError (Node.control e d t) = true
      · have hes : e.isSome = true := by
          have h2 := hhe
          rw [hasError, Bool.and_eq_true] at h2
          simpa [Node.invalid] using h2.1
        obtain ⟨v, hv⟩ := Option.isSome_iff_exists.mp hes
        subst hv
        simp [findErrors, findErrorsOnFormControls, hhe, Node.errors, setErrorToErrorObject,
          scanOps, applyOps, ih2]
      · rw [Bool.not_eq_true] at hhe
        simp [findErrors, findErrorsOnFormControls, hhe, scanOps, ih2]

/-- C8: the scan is idempotent — on a root whose children are well formed
(array rows are groups of leaves, child names unique as JS object keys are),
running `findErrors` a second time on the accumulator the first run produced
returns exactly the first run's accumulator, and neither run throws. -/
theorem findErrors_idempotent (controls : List (String × Node)) (acc : ErrorObject)
    (hwf : controlsScanWF controls = true)
    (hkeys : (controls.map Prod.fst).Nodup) :
    findErrors controls (findErrors controls acc).1 = findErrors controls acc ∧
    (findErrors controls acc).2 = none := by
  have hnodup : ((scanOps controls).map Prod.fst).Nodup :=
    List.Nodup.sublist (scanOps_keys_sublist controls) hkeys
  have h1 := findErrors_eq_applyOps controls acc hwf
  constructor
  · rw [h1]
    rw [findErrors_eq_applyOps controls (applyOps (scanOps controls) acc) hwf]
    rw [applyOps_applyOps (scanOps controls) hnodup acc]
  · rw [h1]

/-- Witness for C8: a root with a three-row `items` array, a leaf `x` and a
nested group `g`, scanned twice from the empty accumulator. -/
theorem findErrors_idempotent_witness :
    (findErrors
        [("items", Node.array exampleItemsRows none),
         ("x", Node.control (some ⟨none, false, true, none, none, false, none⟩) true false),
         ("g", Node.group [("inner", Node.control (some noValidationErrors) true true)] none)]
        (findErrors
          [("items", Node.array exampleItemsRows none),
           ("x", Node.control (some ⟨none, false, true, none, none, false, none⟩) true false),
           ("g", Node.group [("inner", Node.control (some noValidationErrors) true true)] none)]
          []).1 =
      findErrors
        [("items", Node.array exampleItemsRows none),
         ("x", Node.control (some ⟨none, false, true, none, none, false, none⟩) true false),
         ("g", Node.group [("inner", Node.control (some noValidationErrors) true true)] none)]
        []) ∧
    (findErrors
        [("items", Node.array exampleItemsRows none),
         ("x", Node.control (some ⟨none, false, true, none, none, false, none⟩) true false),
         ("g", Node.group [("inner", Node.control (some noValidationErrors) true true)] none)]
        []).2 = none := by
  exact findErrors_idempotent
    [("items", Node.array exampleItemsRows none),
     ("x", Node.control (some ⟨none, false, true, none, none, false, none⟩) true false),
     ("g", Node.group [("inner", Node.control (some noValidationErrors) true true)] none)]
    [] rfl (by decide)
